import Mathlib

/-!
Verification development for the flexprice usage-metering core and its
HubSpot webhook integration.

The usage-metering core (Usage Record Model, Ingestion Gate, Bucketing
Engine, Analytics Engine, Export Pager) is declared in
`internal/domain/events/feature_usage_v2.go` only as the
`FeatureUsageV2Repository` interface; its implementation is not part of the
source tree available here, so those components are modelled from the
specification text.  The HubSpot webhook signature verification
(`internal/integration/hubspot/client.go`) and the HubSpot webhook handler
are present as source and are embedded directly.
-/

namespace FlexPrice

/-- Modelled from the spec: the `UsageRecord` entity of §3 of the spec
(the implementation behind `FeatureUsageV2Repository` is missing from the
source tree).  `id` is the globally unique identifier assigned at
ingestion; `eventTimestamp` and `ingestedAt` are modelled as seconds since
the Unix epoch; `quantity` is an integer measured value; `properties` is an
open string-to-string mapping used for group-by dimensions. -/
structure UsageRecord where
  id : Nat
  subscriptionID : String
  meterID : String
  externalCustomerID : String
  featureID : String
  periodID : Nat
  eventTimestamp : Nat
  quantity : Int
  properties : List (String × String)
  uniqueHash : String
  ingestedAt : Nat
deriving DecidableEq, Repr

/-- Modelled from the spec: the dedup key tuple
`(subscriptionID, meterID, periodID, uniqueHash)` of §3. -/
def dedupKey (r : UsageRecord) : String × String × Nat × String :=
  (r.subscriptionID, r.meterID, r.periodID, r.uniqueHash)

/-- Modelled from the spec: a malformed record is one missing identity
fields (§4.1, §7 `ValidationError`). -/
def isValidRecord (r : UsageRecord) : Bool :=
  !(r.subscriptionID = "") && !(r.meterID = "") && !(r.uniqueHash = "")

/-- The durable store of the Ingestion Gate, modelled as the list of
persisted records in insertion order. -/
abbrev Store := List UsageRecord

/-- Whether some record with the given dedup key is already stored. -/
def keyMem (store : Store) (k : String × String × Nat × String) : Bool :=
  store.any (fun r => dedupKey r = k)

/-- Per-record outcome of an insert, as reported by the Ingestion Gate
(§4.1: newly stored, skipped as duplicate, or failed validation). -/
inductive InsertOutcome where
  | inserted
  | duplicate
  | validationFailed
deriving DecidableEq, Repr

/-- Modelled from the spec: `InsertOne` / `InsertProcessedEvent` (§4.1).
A malformed record fails validation and is not stored; a record whose
dedup key already exists is a no-op success reported as duplicate; any
other record is appended to the store. -/
def insertOne (store : Store) (r : UsageRecord) : Store × InsertOutcome :=
  if isValidRecord r = false then (store, .validationFailed)
  else if keyMem store (dedupKey r) then (store, .duplicate)
  else (store ++ [r], .inserted)

/-- Modelled from the spec: `InsertBatch` / `BulkInsertProcessedEvents`
(§4.1).  Each record's duplicate status is evaluated independently against
the store as updated by its predecessors; a duplicate or malformed record
does not abort siblings; the result reports, per record in order, its
individual outcome. -/
def insertBatch (store : Store) (rs : List UsageRecord) :
    Store × List InsertOutcome :=
  match rs with
  | [] => (store, [])
  | r :: rest =>
    let step := insertOne store r
    let tail := insertBatch step.1 rest
    (tail.1, step.2 :: tail.2)

/-- An ingestion operation: a single insert or a batch insert. -/
inductive IngestOp where
  | one (r : UsageRecord)
  | batch (rs : List UsageRecord)

/-- Apply one ingestion operation to the store. -/
def applyOp (store : Store) (op : IngestOp) : Store :=
  match op with
  | .one r => (insertOne store r).1
  | .batch rs => (insertBatch store rs).1

/-- Run a sequence of ingestion operations starting from the empty store. -/
def runOps (ops : List IngestOp) : Store :=
  ops.foldl applyOp []

/-- Number of stored records having a given dedup key. -/
def countKey (store : Store) (k : String × String × Nat × String) : Nat :=
  store.countP (fun r => dedupKey r = k)

/-! ### Bucketing Engine (§4.2), modelled from the spec

Timestamps are seconds since the Unix epoch, interpreted in UTC (the
default time zone of the spec).  Granularities `hour`, `day` and `week`
align to 3600-second, 86400-second and Monday-aligned 7-day boundaries;
`month` aligns to the first day of a civil (proleptic Gregorian) month. -/

/-- Bucket granularity (§4.2). -/
inductive Granularity where
  | hour
  | day
  | week
  | month
deriving DecidableEq, Repr

/-- Civil date from a day count since 1970-01-01 (proleptic Gregorian,
standard days-to-civil algorithm): returns (year, month, day). -/
def civilFromDays (z : Nat) : Nat × Nat × Nat :=
  let z' := z + 719468
  let era := z' / 146097
  let doe := z' % 146097
  let yoe := (doe - doe / 1460 + doe / 36524 - doe / 146096) / 365
  let doy := doe - (365 * yoe + yoe / 4 - yoe / 100)
  let mp := (5 * doy + 2) / 153
  let d := doy - (153 * mp + 2) / 5 + 1
  let m := if mp < 10 then mp + 3 else mp - 9
  let y := yoe + era * 400 + (if m ≤ 2 then 1 else 0)
  (y, m, d)

/-- Whether a day count falls on the first day of a civil month. -/
def isFirstOfMonth (d : Nat) : Bool :=
  (civilFromDays d).2.2 = 1

/-- Whether a day count falls on a Monday (1970-01-05, day 4, was a
Monday). -/
def isMonday (d : Nat) : Bool :=
  d % 7 = 4

/-- The smallest day count strictly greater than `d` satisfying `p`,
searched over the next 31 days (every Monday and every first-of-month lies
within 31 days); the fallback keeps the result strictly greater than `d`
in all cases. -/
def nextAlignedDay (p : Nat → Bool) (d : Nat) : Nat :=
  match (List.range 31).find? (fun i => p (d + 1 + i)) with
  | some i => d + 1 + i
  | none => d + 31

/-- Modelled from the spec: the first calendar-aligned bucket boundary
strictly after time `t` for the given granularity (§4.2). -/
def nextBoundary (g : Granularity) (t : Nat) : Nat :=
  match g with
  | .hour => (t / 3600 + 1) * 3600
  | .day => (t / 86400 + 1) * 86400
  | .week => nextAlignedDay isMonday (t / 86400) * 86400
  | .month => nextAlignedDay isFirstOfMonth (t / 86400) * 86400

/-- Fuel-driven bucket generation: from `s`, emit `[s, min (next s) endT)`
and continue from the bucket's end until the range is exhausted. -/
def bucketsGo (g : Granularity) (endT : Nat) : Nat → Nat → List (Nat × Nat)
  | 0, _ => []
  | fuel + 1, s =>
    if endT ≤ s then []
    else
      let e := min (nextBoundary g s) endT
      (s, e) :: bucketsGo g endT fuel e

/-- Modelled from the spec: the Bucketing Engine's ordered sequence of
bucket boundaries for the half-open range `[startT, endT)` (§4.2): the
first bucket starts at `startT`, each bucket ends at the next
calendar-aligned boundary, and the final bucket is clipped to `endT`. -/
def buckets (g : Granularity) (startT endT : Nat) : List (Nat × Nat) :=
  bucketsGo g endT (endT - startT) startT

/-- Per-feature aggregation policy (§4.2): cumulative sum or
point-in-time max. -/
inductive AggPolicy where
  | sum
  | max
deriving DecidableEq, Repr

/-- Modelled from the spec: the per-bucket reducer (§4.2).  `sum` reports
the arithmetic sum of the quantities (0 for an empty bucket, kept dense);
`max` reports the maximum quantity, or explicit absence for an empty
bucket. -/
def reduceBucket (p : AggPolicy) (qs : List Int) : Option Int :=
  match p with
  | .sum => some (qs.foldl (· + ·) 0)
  | .max =>
    qs.foldl (fun acc q =>
      some (match acc with
            | none => q
            | some m => Max.max m q)) none

/-- Modelled from the spec: bucket membership is start-inclusive,
end-exclusive, and decided by `eventTimestamp` alone (§4.2, §3). -/
def inBucket (b : Nat × Nat) (r : UsageRecord) : Bool :=
  b.1 ≤ r.eventTimestamp && r.eventTimestamp < b.2

/-! ### Analytics Engine (§4.3), modelled from the spec -/

/-- Modelled from the spec: the filter parameters of
`GetDetailedUsageAnalytics` (§4.3): optional subscription / customer /
meter / feature filters (empty list = no filter), a mandatory time range,
a granularity, and optional group-by dimensions drawn from `properties`
keys. -/
structure UsageAnalyticsParams where
  subscriptionIDs : List String
  externalCustomerIDs : List String
  meterIDs : List String
  featureIDs : List String
  startTime : Nat
  endTime : Nat
  windowSize : Granularity
  groupBy : List String
deriving DecidableEq, Repr

/-- Whether a record passes the analytics filter predicates and lies in
the queried time range. -/
def matchesAnalytics (p : UsageAnalyticsParams) (r : UsageRecord) : Bool :=
  (p.subscriptionIDs.isEmpty || p.subscriptionIDs.contains r.subscriptionID) &&
  (p.externalCustomerIDs.isEmpty || p.externalCustomerIDs.contains r.externalCustomerID) &&
  (p.meterIDs.isEmpty || p.meterIDs.contains r.meterID) &&
  (p.featureIDs.isEmpty || p.featureIDs.contains r.featureID) &&
  (p.startTime ≤ r.eventTimestamp && r.eventTimestamp < p.endTime)

/-- Modelled from the spec: the group key is a stable, deterministic
serialization of the selected dimension values (§4.3, §9); the singleton
group key is the empty serialization. -/
def groupKeyOf (groupBy : List String) (r : UsageRecord) : String :=
  String.intercalate "," (groupBy.map (fun k => ((r.properties.lookup k).getD "")))

/-- Canonical sorted, duplicate-free form of a list of keys: fixes the
output order of groups and features independently of store order. -/
def sortDedup (l : List String) : List String :=
  List.insertionSort (· ≤ ·) l.dedup

/-- Modelled from the spec: a feature present in `maxBucketFeatures` uses
the `max` policy; all other features default to `sum` (§4.3). -/
def policyOf (maxBucketFeatures : List String) (feature : String) : AggPolicy :=
  if maxBucketFeatures.contains feature then .max else .sum

/-- One output row of the Analytics Engine: the group, the feature, the
bucket's time window, and the reduced value (`none` = explicit absence). -/
structure AnalyticsRow where
  groupKey : String
  feature : String
  bucketStart : Nat
  bucketEnd : Nat
  value : Option Int
deriving DecidableEq, Repr

/-- The quantities of the matched records belonging to a given group,
feature and bucket. -/
def bucketQuantities (matched : List UsageRecord) (groupBy : List String)
    (gk f : String) (b : Nat × Nat) : List Int :=
  (matched.filter (fun r =>
    groupKeyOf groupBy r = gk && r.featureID = f && inBucket b r)).map
    (fun r => r.quantity)

/-- Modelled from the spec: the Analytics Engine's processing model over an
explicit bucket list (§4.3): filter, partition by group key, and emit one
ordered row per (group, feature, bucket) with the feature's policy
reducer. -/
def analyticsRowsWith (store : Store) (p : UsageAnalyticsParams)
    (maxBucketFeatures : List String) (bs : List (Nat × Nat)) :
    List AnalyticsRow :=
  let matched := store.filter (matchesAnalytics p)
  let keys := sortDedup (matched.map (groupKeyOf p.groupBy))
  let feats := sortDedup (matched.map (fun r => r.featureID))
  (keys.map (fun gk =>
    (feats.map (fun f =>
      bs.map (fun b =>
        { groupKey := gk, feature := f, bucketStart := b.1, bucketEnd := b.2,
          value := reduceBucket (policyOf maxBucketFeatures f)
            (bucketQuantities matched p.groupBy gk f b) : AnalyticsRow }))).flatten)).flatten

/-- Modelled from the spec: `GetDetailedUsageAnalytics` (§4.3), running the
Bucketing Engine over the requested range and granularity. -/
def getDetailedUsageAnalytics (store : Store) (p : UsageAnalyticsParams)
    (maxBucketFeatures : List String) : List AnalyticsRow :=
  analyticsRowsWith store p maxBucketFeatures
    (buckets p.windowSize p.startTime p.endTime)

/-- Modelled from the spec: `GetFeatureUsageBySubscription` (§4.3): a
mapping from feature identifier to a single aggregated (summed) result
for the whole range, with no sub-bucketing. -/
def getFeatureUsageBySubscription (store : Store)
    (subscriptionID externalCustomerID : String) (startT endT : Nat) :
    List (String × Int) :=
  let matched := store.filter (fun r =>
    r.subscriptionID = subscriptionID &&
    r.externalCustomerID = externalCustomerID &&
    (startT ≤ r.eventTimestamp && r.eventTimestamp < endT))
  (sortDedup (matched.map (fun r => r.featureID))).map (fun f =>
    (f, ((matched.filter (fun r => r.featureID = f)).map
          (fun r => r.quantity)).foldl (· + ·) 0))

/-! ### Export Pager (§4.4), modelled from the spec -/

/-- Whether a record's `eventTimestamp` lies in the export range. -/
def inExportRange (startT endT : Nat) (r : UsageRecord) : Bool :=
  startT ≤ r.eventTimestamp && r.eventTimestamp < endT

/-- The stable total order of the Export Pager: `eventTimestamp`, then
`id` (§4.4). -/
def exportOrd (a b : UsageRecord) : Prop :=
  a.eventTimestamp < b.eventTimestamp ∨
    (a.eventTimestamp = b.eventTimestamp ∧ a.id ≤ b.id)

instance : DecidableRel exportOrd := fun a b => by
  unfold exportOrd; infer_instance

instance : IsTotal UsageRecord exportOrd :=
  ⟨fun a b => by unfold exportOrd; omega⟩

instance : IsTrans UsageRecord exportOrd :=
  ⟨fun a b c hab hbc => by unfold exportOrd at *; omega⟩

/-- The snapshot of matching records in the Export Pager's stable order. -/
def sortedMatches (store : Store) (startT endT : Nat) : List UsageRecord :=
  List.insertionSort exportOrd (store.filter (inExportRange startT endT))

/-- Modelled from the spec: `GetFeatureUsageForExport` (§4.4): the page of
at most `batchSize` records at the given `offset` of the stable-order
snapshot. -/
def getFeatureUsageForExport (store : Store) (startT endT : Nat)
    (batchSize offset : Nat) : List UsageRecord :=
  ((sortedMatches store startT endT).drop offset).take batchSize

/-- The export driver loop of the spec (§4.4, §8): concatenate pages at
offsets `0, batchSize, 2*batchSize, ...`, stopping at the first page
shorter than `batchSize`.  Fuel bounds the recursion. -/
def collectFrom (l : List UsageRecord) (batchSize : Nat) :
    Nat → Nat → List UsageRecord
  | 0, _ => []
  | fuel + 1, offset =>
    let page := (l.drop offset).take batchSize
    if page.length < batchSize then page
    else page ++ collectFrom l batchSize fuel (offset + batchSize)

/-- Concatenation of all export pages starting from offset 0. -/
def collectPages (store : Store) (startT endT : Nat) (batchSize : Nat)
    (fuel : Nat) : List UsageRecord :=
  collectFrom (sortedMatches store startT endT) batchSize fuel 0

/-! ### HubSpot webhook signature verification
(`internal/integration/hubspot/client.go`)

Embedded from the source.  Go byte strings are modelled as `List Nat`
(each element a byte value); 32-bit words are `Nat` with explicit
reduction modulo `2^32`.  `crypto/sha256`, `crypto/hmac` and
`encoding/base64` follow FIPS 180-4 SHA-256, RFC 2104 HMAC and standard
Base64 with padding, as the Go standard library implements them. -/

/-- Reduce modulo `2^32`. -/
def m32 (x : Nat) : Nat := x % 4294967296

/-- 32-bit right rotation of `x < 2^32` by `n ≤ 32` bits. -/
def rotr (n x : Nat) : Nat := x / 2 ^ n + x % 2 ^ n * 2 ^ (32 - n)

/-- Big-endian byte decomposition of `n` into `k` bytes. -/
def toBytesBE (k n : Nat) : List Nat :=
  (List.range k).map (fun i => n / 256 ^ (k - 1 - i) % 256)

/-- SHA-256 round constants (FIPS 180-4, in decimal). -/
def sha256K : List Nat :=
  [1116352408, 1899447441, 3049323471, 3921009573, 961987163,
   1508970993, 2453635748, 2870763221, 3624381080, 310598401,
   607225278, 1426881987, 1925078388, 2162078206, 2614888103,
   3248222580, 3835390401, 4022224774, 264347078, 604807628,
   770255983, 1249150122, 1555081692, 1996064986, 2554220882,
   2821834349, 2952996808, 3210313671, 3336571891, 3584528711,
   113926993, 338241895, 666307205, 773529912, 1294757372,
   1396182291, 1695183700, 1986661051, 2177026350, 2456956037,
   2730485921, 2820302411, 3259730800, 3345764771, 3516065817,
   3600352804, 4094571909, 275423344, 430227734, 506948616,
   659060556, 883997877, 958139571, 1322822218, 1537002063,
   1747873779, 1955562222, 2024104815, 2227730452, 2361852424,
   2428436474, 2756734187, 3204031479, 3329325298]

/-- SHA-256 working state: eight 32-bit words. -/
structure Sha256State where
  a : Nat
  b : Nat
  c : Nat
  d : Nat
  e : Nat
  f : Nat
  g : Nat
  h : Nat
deriving DecidableEq, Repr

/-- SHA-256 initial hash value (FIPS 180-4, in decimal). -/
def sha256InitState : Sha256State :=
  { a := 1779033703, b := 3144134277, c := 1013904242, d := 2773480762,
    e := 1359893119, f := 2600822924, g := 528734635, h := 1541459225 }

/-- Word `i` (big-endian) of a 64-byte block. -/
def wordAt (block : List Nat) (i : Nat) : Nat :=
  block.getD (4 * i) 0 * 16777216 + block.getD (4 * i + 1) 0 * 65536 +
    block.getD (4 * i + 2) 0 * 256 + block.getD (4 * i + 3) 0

/-- SHA-256 message-schedule small sigma functions. -/
def smallSigma0 (x : Nat) : Nat := rotr 7 x ^^^ rotr 18 x ^^^ x / 8

/-- Second small sigma function of the SHA-256 message schedule. -/
def smallSigma1 (x : Nat) : Nat := rotr 17 x ^^^ rotr 19 x ^^^ x / 1024

/-- The SHA-256 message schedule `W_i` for one 64-byte block. -/
def msgSchedule (block : List Nat) (i : Nat) : Nat :=
  if i < 16 then m32 (wordAt block i)
  else
    m32 (msgSchedule block (i - 16) + smallSigma0 (msgSchedule block (i - 15)) +
      msgSchedule block (i - 7) + smallSigma1 (msgSchedule block (i - 2)))
termination_by i
decreasing_by all_goals omega

/-- One SHA-256 compression round. -/
def compressRound (block : List Nat) (st : Sha256State) (i : Nat) :
    Sha256State :=
  let s1 := rotr 6 st.e ^^^ rotr 11 st.e ^^^ rotr 25 st.e
  let ch := (st.e &&& st.f) ^^^ ((4294967295 - st.e) &&& st.g)
  let temp1 := m32 (st.h + s1 + ch + sha256K.getD i 0 + msgSchedule block i)
  let s0 := rotr 2 st.a ^^^ rotr 13 st.a ^^^ rotr 22 st.a
  let maj := (st.a &&& st.b) ^^^ (st.a &&& st.c) ^^^ (st.b &&& st.c)
  let temp2 := m32 (s0 + maj)
  { a := m32 (temp1 + temp2), b := st.a, c := st.b, d := st.c,
    e := m32 (st.d + temp1), f := st.e, g := st.f, h := st.g }

/-- SHA-256 compression of one 64-byte block into the running state. -/
def compressBlock (st : Sha256State) (block : List Nat) : Sha256State :=
  let t := (List.range 64).foldl (compressRound block) st
  { a := m32 (st.a + t.a), b := m32 (st.b + t.b), c := m32 (st.c + t.c),
    d := m32 (st.d + t.d), e := m32 (st.e + t.e), f := m32 (st.f + t.f),
    g := m32 (st.g + t.g), h := m32 (st.h + t.h) }

/-- SHA-256 padding: append `0x80`, zeros to 56 mod 64, and the 8-byte
big-endian bit length. -/
def padMessage (msg : List Nat) : List Nat :=
  msg ++ [128] ++ List.replicate ((119 - msg.length % 64) % 64) 0 ++
    toBytesBE 8 (msg.length * 8)

/-- Split a list into chunks of `n` elements. -/
def chunkList (n : Nat) (l : List Nat) : List (List Nat) :=
  if _hln : l.isEmpty ∨ n = 0 then []
  else l.take n :: chunkList n (l.drop n)
termination_by l.length
decreasing_by
  simp only [not_or, List.isEmpty_iff] at _hln
  rcases _hln with ⟨h1, h2⟩
  have : 0 < l.length := List.length_pos.mpr h1
  simp only [List.length_drop]
  omega

/-- The four big-endian bytes of a 32-bit word. -/
def wordBytes (x : Nat) : List Nat := toBytesBE 4 x

/-- SHA-256 of a byte string. -/
def sha256 (msg : List Nat) : List Nat :=
  let st := (chunkList 64 (padMessage msg)).foldl compressBlock sha256InitState
  wordBytes st.a ++ wordBytes st.b ++ wordBytes st.c ++ wordBytes st.d ++
    wordBytes st.e ++ wordBytes st.f ++ wordBytes st.g ++ wordBytes st.h

/-- HMAC-SHA256 (RFC 2104, block size 64, as `crypto/hmac` computes it):
a key longer than the block size is first hashed, then zero-padded. -/
def hmacSha256 (key msg : List Nat) : List Nat :=
  let k0 := if 64 < key.length then sha256 key else key
  let kPad := k0 ++ List.replicate (64 - k0.length) 0
  let ipadKey := kPad.map (fun b => b ^^^ 54)
  let opadKey := kPad.map (fun b => b ^^^ 92)
  sha256 (opadKey ++ sha256 (ipadKey ++ msg))

/-- The standard Base64 alphabet. -/
def base64Table : List Char :=
  "ABCDEFGHIJKLMNOPQRSTUVWXYZabcdefghijklmnopqrstuvwxyz0123456789+/".toList

/-- Character of a 6-bit group. -/
def b64Char (n : Nat) : Char := base64Table.getD n 'A'

/-- Standard Base64 encoding with `=` padding (`base64.StdEncoding`). -/
def base64Encode : List Nat → List Char
  | [] => []
  | [a] =>
    let n := a * 65536
    [b64Char (n / 262144 % 64), b64Char (n / 4096 % 64), '=', '=']
  | [a, b] =>
    let n := a * 65536 + b * 256
    [b64Char (n / 262144 % 64), b64Char (n / 4096 % 64), b64Char (n / 64 % 64),
     '=']
  | a :: b :: c :: rest =>
    let n := a * 65536 + b * 256 + c
    b64Char (n / 262144 % 64) :: b64Char (n / 4096 % 64) ::
      b64Char (n / 64 % 64) :: b64Char (n % 64) :: base64Encode rest

/-- Embedded from `Client.VerifyWebhookSignatureV3`
(`internal/integration/hubspot/client.go:161`): reject an empty signature,
compute `Base64(HMAC-SHA256(clientSecret, method + uri + body +
timestamp))` and compare it with the supplied signature (`hmac.Equal` is
byte-slice equality). -/
def verifyWebhookSignatureV3 (method uri requestBody timestamp : List Nat)
    (signature : List Char) (clientSecret : List Nat) : Bool :=
  if signature.isEmpty then false
  else
    let sourceString := method ++ uri ++ requestBody ++ timestamp
    let computedSignature :=
      base64Encode (hmacSha256 clientSecret sourceString)
    computedSignature = signature

/-! ### HubSpot webhook handler (`WebhookHandler.HandleHubSpotWebhook`)

Embedded from the source.  The handler always answers HTTP 200 (a
deferred `c.JSON(http.StatusOK, ...)` runs on every return path) and
works through a chain of checks; the model records the final status code
and whether processing reaches signature verification.  External
collaborators (integration factory, configuration lookup) are modelled as
succeeding, with the configured client secret a parameter. -/

/-- Two's-complement wrap of an integer into `[-2^63, 2^63)`, the result
of Go `int64` arithmetic. -/
def wrap64 (x : Int) : Int :=
  (x + 9223372036854775808) % 18446744073709551616 - 9223372036854775808

/-- Fold a digit string into its value; `none` on a non-digit. -/
def parseDigits (cs : List Char) : Option Nat :=
  if cs.isEmpty then none
  else
    cs.foldl (fun acc c =>
      match acc with
      | none => none
      | some n => if c.isDigit then some (n * 10 + (c.toNat - 48)) else none)
      (some 0)

/-- Embedded from Go `strconv.ParseInt(s, 10, 64)`: an optional sign, a
nonempty run of decimal digits, and an `int64` range check; `none` models
a non-nil error. -/
def parseInt64 (s : String) : Option Int :=
  match s.toList with
  | [] => none
  | c :: rest =>
    if c = '+' then
      (parseDigits rest).bind (fun n =>
        if (n : Int) ≤ 9223372036854775807 then some (n : Int) else none)
    else if c = '-' then
      (parseDigits rest).bind (fun n =>
        if (n : Int) ≤ 9223372036854775808 then some (-(n : Int)) else none)
    else
      (parseDigits (c :: rest)).bind (fun n =>
        if (n : Int) ≤ 9223372036854775807 then some (n : Int) else none)

/-- The request data the handler's checks read, plus the current clock in
Unix milliseconds. -/
structure HubSpotWebhookRequest where
  tenantID : String
  environmentID : String
  signatureHeader : String
  timestampHeader : String
  clientSecret : String
  currentTimeMillis : Int
deriving DecidableEq, Repr

/-- `maxAllowedTimestamp` of the handler: 5 minutes in milliseconds. -/
def maxAllowedTimestampAge : Int := 300000

/-- Embedded from `WebhookHandler.HandleHubSpotWebhook`: the HTTP status
(always 200, via the deferred response) paired with whether processing
reaches signature verification.  Checks run in source order: tenant and
environment path parameters, signature header, timestamp header, client
secret, timestamp parse, then the age check
`currentTime - timestampInt > maxAllowedTimestamp` in `int64`
arithmetic. -/
def handleHubSpotWebhook (req : HubSpotWebhookRequest) : Nat × Bool :=
  (200,
    if req.tenantID = "" || req.environmentID = "" then false
    else if req.signatureHeader = "" then false
    else if req.timestampHeader = "" then false
    else if req.clientSecret = "" then false
    else
      match parseInt64 req.timestampHeader with
      | none => false
      | some ts =>
        if maxAllowedTimestampAge < wrap64 (req.currentTimeMillis - ts) then
          false
        else true)

/-! ### Sample records used in concrete scenarios and witnesses -/

/-- Record A of the spec's concrete scenario (§8). -/
def recordA : UsageRecord :=
  { id := 1, subscriptionID := "sub1", meterID := "meterX",
    externalCustomerID := "cust1", featureID := "feat1", periodID := 1,
    eventTimestamp := 36000, quantity := 5, properties := [],
    uniqueHash := "hashA", ingestedAt := 40000 }

/-- Record C of the spec's concrete scenario (§8). -/
def recordC : UsageRecord :=
  { id := 2, subscriptionID := "sub1", meterID := "meterX",
    externalCustomerID := "cust1", featureID := "feat1", periodID := 1,
    eventTimestamp := 37800, quantity := 3, properties := [],
    uniqueHash := "hashC", ingestedAt := 41000 }

/-- A fresh record with unique hash `h` and id `n`, for batch scenarios. -/
def freshRecord (n : Nat) (h : String) : UsageRecord :=
  { id := n, subscriptionID := "sub1", meterID := "meterX",
    externalCustomerID := "cust1", featureID := "feat1", periodID := 1,
    eventTimestamp := 36000 + n, quantity := 1, properties := [],
    uniqueHash := h, ingestedAt := 40000 + n }

/-- A record whose `eventTimestamp` (3600) sits exactly on an hourly
bucket boundary. -/
def boundaryRecord : UsageRecord :=
  { id := 7, subscriptionID := "sub1", meterID := "meterX",
    externalCustomerID := "cust1", featureID := "feat1", periodID := 1,
    eventTimestamp := 3600, quantity := 2, properties := [],
    uniqueHash := "hashB", ingestedAt := 99999 }

/-- A malformed record: its `meterID` identity field is missing. -/
def malformedRecord : UsageRecord :=
  { id := 99, subscriptionID := "sub1", meterID := "",
    externalCustomerID := "cust1", featureID := "feat1", periodID := 1,
    eventTimestamp := 36099, quantity := 1, properties := [],
    uniqueHash := "hashZ", ingestedAt := 40099 }

/-- A webhook request whose timestamp is the most negative `int64`; the
handler's `int64` age subtraction overflows on it. -/
def wrapTimestampRequest : HubSpotWebhookRequest :=
  { tenantID := "tenant", environmentID := "env", signatureHeader := "sig",
    timestampHeader := "-9223372036854775808", clientSecret := "secret",
    currentTimeMillis := 0 }

/-- A webhook request with a fresh timestamp (100 seconds old). -/
def freshTimestampRequest : HubSpotWebhookRequest :=
  { tenantID := "tenant", environmentID := "env", signatureHeader := "sig",
    timestampHeader := "900000", clientSecret := "secret",
    currentTimeMillis := 1000000 }

/-! ### Ingestion Gate lemmas -/

/-- `keyMem` is false exactly when no stored record has the key. -/
theorem keyMem_eq_false_iff (store : Store) (k : String × String × Nat × String) :
    keyMem store k = false ↔ ∀ r ∈ store, dedupKey r ≠ k := by
  simp [keyMem, List.any_eq_true]

/-- `insertOne` preserves duplicate-freedom of the dedup keys. -/
theorem insertOne_keysNodup (store : Store) (r : UsageRecord)
    (h : (store.map dedupKey).Nodup) :
    (((insertOne store r).1).map dedupKey).Nodup := by
  unfold insertOne
  by_cases hv : isValidRecord r = false
  · simpa [hv] using h
  · by_cases hk : keyMem store (dedupKey r)
    · simpa [hv, hk] using h
    · have hk' : ∀ r' ∈ store, dedupKey r' ≠ dedupKey r :=
        (keyMem_eq_false_iff store (dedupKey r)).mp (by simpa using hk)
      rw [if_neg hv, if_neg hk]
      show (List.map dedupKey (store ++ [r])).Nodup
      rw [List.map_append]
      refine List.Nodup.append h (by simp) ?_
      intro a ha hb
      simp only [List.map_cons, List.map_nil, List.mem_singleton] at hb
      rcases List.mem_map.mp ha with ⟨r', hr', hkey⟩
      exact hk' r' hr' (hkey.trans hb)

/-- `insertBatch` preserves duplicate-freedom of the dedup keys. -/
theorem insertBatch_keysNodup (rs : List UsageRecord) (store : Store)
    (h : (store.map dedupKey).Nodup) :
    (((insertBatch store rs).1).map dedupKey).Nodup := by
  induction rs generalizing store with
  | nil => simpa [insertBatch] using h
  | cons r rest ih =>
    simp only [insertBatch]
    exact ih _ (insertOne_keysNodup store r h)

/-- Every store reachable by ingestion operations from the empty store has
duplicate-free dedup keys. -/
theorem runOps_keysNodup (ops : List IngestOp) :
    ((runOps ops).map dedupKey).Nodup := by
  suffices h : ∀ store : Store, (store.map dedupKey).Nodup →
      ((ops.foldl applyOp store).map dedupKey).Nodup by
    exact h [] (by simp)
  induction ops with
  | nil => intro store h; simpa using h
  | cons op rest ih =>
    intro store h
    simp only [List.foldl_cons]
    refine ih _ ?_
    cases op with
    | one r => exact insertOne_keysNodup store r h
    | batch rs => exact insertBatch_keysNodup rs store h

/-- With duplicate-free keys, a present key is held by exactly one
record. -/
theorem countKey_eq_one (store : Store) (k : String × String × Nat × String)
    (hnd : (store.map dedupKey).Nodup) (hk : keyMem store k = true) :
    countKey store k = 1 := by
  induction store with
  | nil => simp [keyMem] at hk
  | cons r rest ih =>
    simp only [List.map_cons, List.nodup_cons] at hnd
    by_cases hr : dedupKey r = k
    · have hrest : countKey rest k = 0 := by
        rw [countKey, List.countP_eq_zero]
        intro a ha
        simp only [decide_eq_true_eq]
        intro hak
        exact hnd.1 (List.mem_map.mpr ⟨a, ha, hak.trans hr.symm⟩)
      simp [countKey, List.countP_cons, hr, countKey] at hrest ⊢
      simpa [countKey] using hrest
    · have hk' : keyMem rest k = true := by
        simp only [keyMem, List.any_cons, Bool.or_eq_true, decide_eq_true_eq] at hk
        rcases hk with h | h
        · exact absurd h hr
        · simpa [keyMem, List.any_eq_true] using h
      have := ih hnd.2 hk'
      simpa [countKey, List.countP_cons, hr] using this

/-- C1: for every sequence of insert operations the store never contains
two records with the same `(subscriptionID, meterID, periodID,
uniqueHash)`: the dedup keys of the reachable store are duplicate-free,
inserting a record whose key already exists is a no-op success reported as
duplicate (never an error), and the store holds exactly one record for
that key. -/
theorem ingestion_dedup_invariant (ops : List IngestOp) (r : UsageRecord)
    (hv : isValidRecord r = true)
    (hk : keyMem (runOps ops) (dedupKey r) = true) :
    ((runOps ops).map dedupKey).Nodup ∧
    insertOne (runOps ops) r = (runOps ops, InsertOutcome.duplicate) ∧
    countKey (runOps ops) (dedupKey r) = 1 := by
  refine ⟨runOps_keysNodup ops, ?_, countKey_eq_one _ _ (runOps_keysNodup ops) hk⟩
  unfold insertOne
  simp [hv, hk]

/-- Witness for C1: after inserting record A (twice) and record C, the key
of A is present and re-inserting A is a duplicate no-op. -/
theorem ingestion_dedup_invariant_witness :
    isValidRecord recordA = true ∧
    keyMem (runOps [.one recordA, .one recordA, .one recordC]) (dedupKey recordA) = true ∧
    (((runOps [.one recordA, .one recordA, .one recordC]).map dedupKey).Nodup ∧
     insertOne (runOps [.one recordA, .one recordA, .one recordC])
       recordA = (runOps [.one recordA, .one recordA, .one recordC], InsertOutcome.duplicate) ∧
     countKey (runOps [.one recordA, .one recordA, .one recordC]) (dedupKey recordA) = 1) :=
  ⟨by decide, by decide,
   ingestion_dedup_invariant [.one recordA, .one recordA, .one recordC] recordA
     (by decide) (by decide)⟩

/-- C2: batch outcomes are per-record and independent: the result reports
one outcome per record, a batch splits into independently processed
segments, and in the concrete 5-record scenario (record 3 a duplicate of
an already-stored record, record 5 malformed) the batch yields 3 newly
stored records, 1 duplicate and 1 validation failure, with records 1, 2
and 4 durably stored and nothing rolled back. -/
theorem batch_partial_success :
    (∀ (store : Store) (rs : List UsageRecord),
      (insertBatch store rs).2.length = rs.length) ∧
    (∀ (store : Store) (rs1 rs2 : List UsageRecord),
      insertBatch store (rs1 ++ rs2) =
        ((insertBatch (insertBatch store rs1).1 rs2).1,
         (insertBatch store rs1).2 ++ (insertBatch (insertBatch store rs1).1 rs2).2)) ∧
    (insertBatch [recordA]
        [freshRecord 11 "h11", freshRecord 12 "h12", freshRecord 13 "hashA",
         freshRecord 14 "h14", malformedRecord] =
      ([recordA, freshRecord 11 "h11", freshRecord 12 "h12", freshRecord 14 "h14"],
       [InsertOutcome.inserted, InsertOutcome.inserted, InsertOutcome.duplicate,
        InsertOutcome.inserted, InsertOutcome.validationFailed])) ∧
    ((insertBatch [recordA]
        [freshRecord 11 "h11", freshRecord 12 "h12", freshRecord 13 "hashA",
         freshRecord 14 "h14", malformedRecord]).2.count InsertOutcome.inserted = 3 ∧
     (insertBatch [recordA]
        [freshRecord 11 "h11", freshRecord 12 "h12", freshRecord 13 "hashA",
         freshRecord 14 "h14", malformedRecord]).2.count InsertOutcome.duplicate = 1 ∧
     (insertBatch [recordA]
        [freshRecord 11 "h11", freshRecord 12 "h12", freshRecord 13 "hashA",
         freshRecord 14 "h14", malformedRecord]).2.count InsertOutcome.validationFailed = 1) := by
  refine ⟨?_, ?_, by decide, by decide, by decide, by decide⟩
  · intro store rs
    induction rs generalizing store with
    | nil => simp [insertBatch]
    | cons r rest ih => simp [insertBatch, ih]
  · intro store rs1 rs2
    induction rs1 generalizing store with
    | nil => simp [insertBatch]
    | cons r rest ih => simp [insertBatch, ih]

/-- C4: from the same empty-bucket input, a `sum`-policy feature reports
the value 0 while a `max`-policy feature reports explicit absence. -/
theorem sum_max_empty_bucket_asymmetry (recs : List UsageRecord)
    (b : Nat × Nat) (h : recs.filter (inBucket b) = []) :
    reduceBucket AggPolicy.sum
      ((recs.filter (inBucket b)).map (fun r => r.quantity)) = some 0 ∧
    reduceBucket AggPolicy.max
      ((recs.filter (inBucket b)).map (fun r => r.quantity)) = none := by
  rw [h]
  exact ⟨rfl, rfl⟩

/-! ### Bucketing Engine lemmas -/

/-- `a` is less than the next multiple of `b` above `a / b`. -/
theorem lt_div_succ_mul (a b : Nat) (h : 0 < b) : a < (a / b + 1) * b := by
  have h1 := Nat.div_add_mod a b
  have h2 := Nat.mod_lt a h
  nlinarith [Nat.div_mul_le_self a b]

/-- `nextAlignedDay` always moves strictly forward. -/
theorem nextAlignedDay_gt (p : Nat → Bool) (d : Nat) :
    d < nextAlignedDay p d := by
  unfold nextAlignedDay
  cases h : (List.range 31).find? (fun i => p (d + 1 + i)) with
  | none => show d < d + 31; omega
  | some i => show d < d + 1 + i; omega

/-- The next bucket boundary is strictly after the current time. -/
theorem nextBoundary_gt (g : Granularity) (t : Nat) : t < nextBoundary g t := by
  cases g with
  | hour => exact lt_div_succ_mul t 3600 (by omega)
  | day => exact lt_div_succ_mul t 86400 (by omega)
  | week =>
    have h1 := nextAlignedDay_gt isMonday (t / 86400)
    have h2 := lt_div_succ_mul t 86400 (by omega)
    have h3 : (t / 86400 + 1) * 86400 ≤ nextAlignedDay isMonday (t / 86400) * 86400 :=
      Nat.mul_le_mul_right _ (by omega)
    simpa [nextBoundary] using lt_of_lt_of_le h2 h3
  | month =>
    have h1 := nextAlignedDay_gt isFirstOfMonth (t / 86400)
    have h2 := lt_div_succ_mul t 86400 (by omega)
    have h3 : (t / 86400 + 1) * 86400 ≤ nextAlignedDay isFirstOfMonth (t / 86400) * 86400 :=
      Nat.mul_le_mul_right _ (by omega)
    simpa [nextBoundary] using lt_of_lt_of_le h2 h3

/-- Bucket generation below an exhausted range is empty. -/
theorem bucketsGo_nil (g : Granularity) (endT : Nat) (fuel s : Nat)
    (h : endT ≤ s) : bucketsGo g endT fuel s = [] := by
  cases fuel with
  | zero => rfl
  | succ fuel => simp [bucketsGo, h]

/-- Structure of the generated bucket list: it starts at `s`, ends at
`endT`, is a contiguous chain of nonempty sub-intervals of `[s, endT)`,
and each in-range time is covered by exactly one bucket. -/
theorem bucketsGo_spec (g : Granularity) (endT : Nat) :
    ∀ fuel s : Nat, s < endT → endT - s ≤ fuel →
    (∃ e, (bucketsGo g endT fuel s).head? = some (s, e)) ∧
    ((bucketsGo g endT fuel s).getLast?.map Prod.snd = some endT) ∧
    List.Chain' (fun x y => x.2 = y.1) (bucketsGo g endT fuel s) ∧
    (∀ b ∈ bucketsGo g endT fuel s, s ≤ b.1 ∧ b.1 < b.2 ∧ b.2 ≤ endT) ∧
    (∀ t : Nat, (bucketsGo g endT fuel s).countP
        (fun b => b.1 ≤ t && t < b.2) =
      if s ≤ t ∧ t < endT then 1 else 0) := by
  intro fuel
  induction fuel with
  | zero => intro s hs hf; omega
  | succ fuel ih =>
    intro s hs hf
    have hne : ¬ endT ≤ s := by omega
    have hgo : bucketsGo g endT (fuel + 1) s =
        (s, min (nextBoundary g s) endT) ::
          bucketsGo g endT fuel (min (nextBoundary g s) endT) := by
      simp [bucketsGo, hne]
    have hse : s < min (nextBoundary g s) endT :=
      lt_min (nextBoundary_gt g s) hs
    have hee : min (nextBoundary g s) endT ≤ endT := min_le_right _ _
    rcases Nat.lt_or_ge (min (nextBoundary g s) endT) endT with he | he
    · -- the range continues past this bucket
      obtain ⟨⟨e2, hhead⟩, hlast, hchain, hbounds, hcount⟩ :=
        ih (min (nextBoundary g s) endT) he (by omega)
      rw [hgo]
      refine ⟨⟨min (nextBoundary g s) endT, rfl⟩, ?_, ?_, ?_, ?_⟩
      · cases hrest : bucketsGo g endT fuel (min (nextBoundary g s) endT) with
        | nil => rw [hrest] at hhead; simp at hhead
        | cons b0 tail =>
          rw [hrest] at hlast
          simpa [List.getLast?_cons_cons] using hlast
      · cases hrest : bucketsGo g endT fuel (min (nextBoundary g s) endT) with
        | nil => simp
        | cons b0 tail =>
          rw [hrest] at hhead hchain
          have hb0 : b0 = (min (nextBoundary g s) endT, e2) := by
            simpa using hhead
          rw [List.chain'_cons]
          exact ⟨by rw [hb0], hchain⟩
      · intro b hb
        rcases List.mem_cons.mp hb with hb1 | hb1
        · subst hb1
          exact ⟨le_refl _, hse, hee⟩
        · have := hbounds b hb1
          omega
      · intro t
        rw [List.countP_cons, hcount t]
        simp only [Bool.and_eq_true, decide_eq_true_eq]
        split_ifs <;> omega
    · -- this bucket is clipped at the end of the range
      have heq : min (nextBoundary g s) endT = endT := by omega
      rw [heq] at hse
      rw [hgo, heq, bucketsGo_nil g endT fuel endT (le_refl _)]
      refine ⟨⟨endT, rfl⟩, by simp, by simp, ?_, ?_⟩
      · intro b hb
        simp only [List.mem_singleton] at hb
        subst hb
        exact ⟨le_refl _, hse, le_refl _⟩
      · intro t
        rw [List.countP_cons]
        simp only [List.countP_nil, Bool.and_eq_true, decide_eq_true_eq]
        split_ifs <;> omega

/-- C3: for every half-open range `[startT, endT)` with `startT < endT`
and every granularity, the Bucketing Engine's buckets are nonempty,
start at `startT`, end at `endT` (final bucket clipped), form a
contiguous chain of nonempty intervals, and cover each in-range time by
exactly one bucket (contiguous, non-overlapping, union = the range). -/
theorem bucketing_contiguity (g : Granularity) (startT endT : Nat)
    (h : startT < endT) :
    buckets g startT endT ≠ [] ∧
    (buckets g startT endT).head?.map Prod.fst = some startT ∧
    (buckets g startT endT).getLast?.map Prod.snd = some endT ∧
    List.Chain' (fun x y => x.2 = y.1) (buckets g startT endT) ∧
    (∀ b ∈ buckets g startT endT, b.1 < b.2) ∧
    (∀ t : Nat, (buckets g startT endT).countP
        (fun b => b.1 ≤ t && t < b.2) =
      if startT ≤ t ∧ t < endT then 1 else 0) := by
  obtain ⟨⟨e, hhead⟩, hlast, hchain, hbounds, hcount⟩ :=
    bucketsGo_spec g endT (endT - startT) startT h (le_refl _)
  rw [buckets]
  refine ⟨?_, ?_, hlast, hchain, fun b hb => (hbounds b hb).2.1, hcount⟩
  · intro hnil
    rw [hnil] at hhead
    simp at hhead
  · rw [hhead]
    rfl

/-- Witness for C3: the hourly bucketing of `[1800, 9000)`. -/
theorem bucketing_contiguity_witness :
    1800 < 9000 ∧
    (buckets Granularity.hour 1800 9000 ≠ [] ∧
     (buckets Granularity.hour 1800 9000).head?.map Prod.fst = some 1800 ∧
     (buckets Granularity.hour 1800 9000).getLast?.map Prod.snd = some 9000 ∧
     List.Chain' (fun x y => x.2 = y.1) (buckets Granularity.hour 1800 9000) ∧
     (∀ b ∈ buckets Granularity.hour 1800 9000, b.1 < b.2) ∧
     (∀ t : Nat, (buckets Granularity.hour 1800 9000).countP
         (fun b => b.1 ≤ t && t < b.2) =
       if 1800 ≤ t ∧ t < 9000 then 1 else 0)) :=
  ⟨by decide, bucketing_contiguity Granularity.hour 1800 9000 (by decide)⟩

/-- C5: a record whose `eventTimestamp` equals a bucket boundary belongs
to the bucket starting at that boundary and to no other (membership is
start-inclusive, end-exclusive), and membership depends only on
`eventTimestamp`, never on `ingestedAt` or any other field. -/
theorem bucket_boundary_assignment (g : Granularity) (startT endT : Nat)
    (h : startT < endT) (b : Nat × Nat) (hb : b ∈ buckets g startT endT)
    (r : UsageRecord) (hr : r.eventTimestamp = b.1) :
    inBucket b r = true ∧
    (∀ b' ∈ buckets g startT endT, b' ≠ b → inBucket b' r = false) ∧
    (∀ r' : UsageRecord, r'.eventTimestamp = r.eventTimestamp →
      ∀ b'' : Nat × Nat, inBucket b'' r' = inBucket b'' r) := by
  obtain ⟨⟨e, hhead⟩, hlast, hchain, hbounds, hcount⟩ :=
    bucketsGo_spec g endT (endT - startT) startT h (le_refl _)
  have hbk : bucketsGo g endT (endT - startT) startT = buckets g startT endT :=
    rfl
  rw [hbk] at hbounds hcount
  have hbB := hbounds b hb
  have hmem : inBucket b r = true := by
    simp only [inBucket, hr, Bool.and_eq_true, decide_eq_true_eq]
    exact ⟨le_refl _, hbB.2.1⟩
  refine ⟨hmem, ?_, ?_⟩
  · intro b' hb' hne
    by_contra hmem'
    have hmem'' : inBucket b' r = true := by
      revert hmem'; cases inBucket b' r <;> simp
    have hrange : startT ≤ r.eventTimestamp ∧ r.eventTimestamp < endT := by
      omega
    have hcnt := hcount r.eventTimestamp
    rw [if_pos hrange] at hcnt
    rw [List.countP_eq_length_filter] at hcnt
    have hbf : b ∈ (buckets g startT endT).filter
        (fun bb => bb.1 ≤ r.eventTimestamp && r.eventTimestamp < bb.2) :=
      List.mem_filter.mpr ⟨hb, hmem⟩
    have hbf' : b' ∈ (buckets g startT endT).filter
        (fun bb => bb.1 ≤ r.eventTimestamp && r.eventTimestamp < bb.2) :=
      List.mem_filter.mpr ⟨hb', hmem''⟩
    have hbe : b' ∈ ((buckets g startT endT).filter
        (fun bb => bb.1 ≤ r.eventTimestamp && r.eventTimestamp < bb.2)).erase b :=
      (List.mem_erase_of_ne hne).mpr hbf'
    have hlenerase := List.length_erase_of_mem hbf
    rw [hcnt] at hlenerase
    have : b' ∈ ([] : List (Nat × Nat)) := by
      have hz : (((buckets g startT endT).filter
          (fun bb => bb.1 ≤ r.eventTimestamp && r.eventTimestamp < bb.2)).erase b).length = 0 := by
        omega
      rw [List.length_eq_zero.mp hz] at hbe
      exact hbe
    simp at this
  · intro r' hr' b''
    simp [inBucket, hr']

/-! ### Export Pager lemmas -/

/-- With enough fuel, concatenating full pages from `offset` reproduces
the remainder of the snapshot. -/
theorem collectFrom_eq_drop (l : List UsageRecord) (batchSize : Nat)
    (hbs : 0 < batchSize) :
    ∀ fuel offset : Nat, l.length ≤ offset + fuel * batchSize →
    collectFrom l batchSize fuel offset = l.drop offset := by
  intro fuel
  induction fuel with
  | zero =>
    intro offset hlen
    simp only [Nat.zero_mul, Nat.add_zero] at hlen
    rw [collectFrom]
    exact (List.drop_eq_nil_of_le hlen).symm
  | succ fuel ih =>
    intro offset hlen
    rw [Nat.succ_mul] at hlen
    simp only [collectFrom]
    by_cases hshort : ((l.drop offset).take batchSize).length < batchSize
    · rw [if_pos hshort]
      have h1 := List.length_take batchSize (l.drop offset)
      have h2 := List.length_drop offset l
      refine List.take_of_length_le ?_
      omega
    · rw [if_neg hshort]
      rw [ih (offset + batchSize) (by omega)]
      rw [← List.drop_drop]
      exact List.take_append_drop batchSize (l.drop offset)

/-- C6: for a fixed snapshot and `batchSize > 0`, concatenating the
export pages at offsets `0, batchSize, 2*batchSize, ...` until a short
page reproduces the full stable-order snapshot (a permutation of the
matching records, duplicate-free when the store is, sorted by the stable
order `eventTimestamp` then `id`), and a page is shorter than `batchSize`
exactly when the snapshot is exhausted at that offset. -/
theorem export_pagination_complete (store : Store) (startT endT : Nat)
    (batchSize : Nat) (h : 0 < batchSize) :
    collectPages store startT endT batchSize
        ((sortedMatches store startT endT).length / batchSize + 1) =
      sortedMatches store startT endT ∧
    (sortedMatches store startT endT).Perm
      (store.filter (inExportRange startT endT)) ∧
    List.Sorted exportOrd (sortedMatches store startT endT) ∧
    (store.Nodup → (sortedMatches store startT endT).Nodup) ∧
    (∀ offset : Nat,
      (getFeatureUsageForExport store startT endT batchSize offset).length <
          batchSize ↔
        (sortedMatches store startT endT).length < offset + batchSize) := by
  refine ⟨?_, ?_, ?_, ?_, ?_⟩
  · rw [collectPages]
    rw [collectFrom_eq_drop _ _ h _ 0 ?_]
    · exact List.drop_zero _
    · have := lt_div_succ_mul (sortedMatches store startT endT).length
        batchSize h
      omega
  · exact List.perm_insertionSort _ _
  · exact List.sorted_insertionSort _ _
  · intro hnd
    exact (List.perm_insertionSort _ _).symm.nodup
      (hnd.filter (inExportRange startT endT))
  · intro offset
    rw [getFeatureUsageForExport]
    have h1 := List.length_take batchSize
      ((sortedMatches store startT endT).drop offset)
    have h2 := List.length_drop offset (sortedMatches store startT endT)
    omega

/-- Witness for C6: a three-record store paged with `batchSize = 2`. -/
theorem export_pagination_complete_witness :
    0 < 2 ∧
    (collectPages [recordA, recordC, boundaryRecord] 0 100000 2
        ((sortedMatches [recordA, recordC, boundaryRecord] 0 100000).length / 2 + 1) =
      sortedMatches [recordA, recordC, boundaryRecord] 0 100000 ∧
    (sortedMatches [recordA, recordC, boundaryRecord] 0 100000).Perm
      ([recordA, recordC, boundaryRecord].filter (inExportRange 0 100000)) ∧
    List.Sorted exportOrd (sortedMatches [recordA, recordC, boundaryRecord] 0 100000) ∧
    (List.Nodup [recordA, recordC, boundaryRecord] →
      (sortedMatches [recordA, recordC, boundaryRecord] 0 100000).Nodup) ∧
    (∀ offset : Nat,
      (getFeatureUsageForExport [recordA, recordC, boundaryRecord] 0 100000 2 offset).length < 2 ↔
        (sortedMatches [recordA, recordC, boundaryRecord] 0 100000).length < offset + 2)) :=
  ⟨by decide,
   export_pagination_complete [recordA, recordC, boundaryRecord] 0 100000 2
     (by decide)⟩

/-! ### Analytics Engine lemmas -/

/-- The per-bucket reducers are order-independent: permuting the
quantities never changes the reduced value (`sum` and `max` are
commutative and associative). -/
theorem reduceBucket_perm (p : AggPolicy) {qs1 qs2 : List Int}
    (h : qs1.Perm qs2) : reduceBucket p qs1 = reduceBucket p qs2 := by
  cases p with
  | sum =>
    simp only [reduceBucket, Option.some.injEq]
    exact h.foldl_eq' (fun x _ y _ z => by ring) 0
  | max =>
    simp only [reduceBucket]
    refine h.foldl_eq' ?_ none
    intro x _ y _ z
    cases z with
    | none => simp [Int.max_comm]
    | some m =>
      simp only [Option.some.injEq]
      omega

/-- Permutation-invariance of the canonical sorted duplicate-free key
list. -/
theorem sortDedup_perm_eq {l1 l2 : List String} (h : l1.Perm l2) :
    sortDedup l1 = sortDedup l2 := by
  unfold sortDedup
  have hp : (List.insertionSort (· ≤ ·) l1.dedup).Perm
      (List.insertionSort (· ≤ ·) l2.dedup) :=
    ((List.perm_insertionSort _ _).trans h.dedup).trans
      (List.perm_insertionSort _ _).symm
  exact List.eq_of_perm_of_sorted hp (List.sorted_insertionSort _ _)
    (List.sorted_insertionSort _ _)

/-- C7: `GetDetailedUsageAnalytics` is deterministic and
insertion-order independent: two stores holding the same records (in any
order) produce exactly equal output for identical parameters. -/
theorem analytics_order_independent (store1 store2 : Store)
    (h : store1.Perm store2) (p : UsageAnalyticsParams)
    (maxBucketFeatures : List String) :
    getDetailedUsageAnalytics store1 p maxBucketFeatures =
      getDetailedUsageAnalytics store2 p maxBucketFeatures := by
  simp only [getDetailedUsageAnalytics, analyticsRowsWith]
  have hm : (store1.filter (matchesAnalytics p)).Perm
      (store2.filter (matchesAnalytics p)) := h.filter _
  rw [sortDedup_perm_eq (hm.map (groupKeyOf p.groupBy)),
    sortDedup_perm_eq (hm.map (fun r => r.featureID))]
  refine congrArg List.flatten (List.map_congr_left ?_)
  intro gk _
  refine congrArg List.flatten (List.map_congr_left ?_)
  intro f _
  refine List.map_congr_left ?_
  intro b _
  have hv : reduceBucket (policyOf maxBucketFeatures f)
      (bucketQuantities (store1.filter (matchesAnalytics p)) p.groupBy gk f b) =
    reduceBucket (policyOf maxBucketFeatures f)
      (bucketQuantities (store2.filter (matchesAnalytics p)) p.groupBy gk f b) :=
    reduceBucket_perm _ ((hm.filter _).map _)
  rw [hv]

/-- Witness for C7: two insertion orders of records A and C give equal
analytics output. -/
theorem analytics_order_independent_witness :
    ([recordA, recordC] : Store).Perm [recordC, recordA] ∧
    getDetailedUsageAnalytics [recordA, recordC]
      { subscriptionIDs := [], externalCustomerIDs := [], meterIDs := [],
        featureIDs := [], startTime := 36000, endTime := 39600,
        windowSize := Granularity.hour, groupBy := [] } [] =
    getDetailedUsageAnalytics [recordC, recordA]
      { subscriptionIDs := [], externalCustomerIDs := [], meterIDs := [],
        featureIDs := [], startTime := 36000, endTime := 39600,
        windowSize := Granularity.hour, groupBy := [] } [] :=
  ⟨List.Perm.swap recordC recordA [],
   analytics_order_independent [recordA, recordC] [recordC, recordA]
     (List.Perm.swap recordC recordA [])
     { subscriptionIDs := [], externalCustomerIDs := [], meterIDs := [],
       featureIDs := [], startTime := 36000, endTime := 39600,
       windowSize := Granularity.hour, groupBy := [] } []⟩

/-- The singleton group key is the empty serialization. -/
theorem groupKeyOf_nil (r : UsageRecord) : groupKeyOf [] r = "" := rfl

/-- Deduplicating a nonempty constant list yields the singleton. -/
theorem dedup_replicate_pos (n : Nat) (a : String) (h : 0 < n) :
    (List.replicate n a).dedup = [a] := by
  induction n with
  | zero => omega
  | succ n ih =>
    rcases Nat.eq_zero_or_pos n with h0 | hpos
    · subst h0; simp
    · rw [List.replicate_succ,
        List.dedup_cons_of_mem (by rw [List.mem_replicate]; exact ⟨by omega, rfl⟩)]
      exact ih hpos

/-- Flattening singleton blocks is a plain map. -/
theorem flatten_map_singleton {α β : Type} (l : List α) (f : α → β) :
    (l.map (fun x => [f x])).flatten = l.map f := by
  induction l with
  | nil => rfl
  | cons x xs ih => simp only [List.map_cons, List.flatten_cons, ih,
      List.singleton_append]

/-- C8: `GetFeatureUsageBySubscription` returns, per feature, exactly the
value the Analytics Engine produces when run over a single bucket
covering the whole range with the subscription/customer filters, no
grouping and the default `sum` policy (the degenerate one-bucket case). -/
theorem by_subscription_degenerate_one_bucket (store : Store)
    (sub cust : String) (startT endT : Nat) :
    (analyticsRowsWith store
        { subscriptionIDs := [sub], externalCustomerIDs := [cust],
          meterIDs := [], featureIDs := [], startTime := startT,
          endTime := endT, windowSize := Granularity.hour, groupBy := [] }
        [] [(startT, endT)]).map (fun row => (row.feature, row.value)) =
      (getFeatureUsageBySubscription store sub cust startT endT).map
        (fun pr => (pr.1, some pr.2)) := by
  have hmatch : List.filter (matchesAnalytics
      { subscriptionIDs := [sub], externalCustomerIDs := [cust],
        meterIDs := [], featureIDs := [], startTime := startT,
        endTime := endT, windowSize := Granularity.hour, groupBy := [] }) store =
      List.filter (fun r =>
        r.subscriptionID = sub &&
        r.externalCustomerID = cust &&
        (startT ≤ r.eventTimestamp && r.eventTimestamp < endT)) store := by
    refine List.filter_congr ?_
    intro r _
    rw [Bool.eq_iff_iff]
    simp [matchesAnalytics]
  simp only [analyticsRowsWith, getFeatureUsageBySubscription, hmatch]
  cases hc : List.filter (fun r =>
      r.subscriptionID = sub &&
      r.externalCustomerID = cust &&
      (startT ≤ r.eventTimestamp && r.eventTimestamp < endT)) store with
  | nil => rfl
  | cons r0 M =>
    have hkeys : sortDedup ((r0 :: M).map (groupKeyOf [])) = [""] := by
      have hgk : groupKeyOf ([] : List String) =
          (fun _ : UsageRecord => ("" : String)) := rfl
      rw [hgk, List.map_const', sortDedup,
        dedup_replicate_pos _ _ (by simp)]
      rfl
    rw [hkeys]
    simp only [List.map_cons, List.map_nil, List.flatten_cons,
      List.flatten_nil, List.append_nil, flatten_map_singleton,
      List.map_map]
    refine List.map_congr_left ?_
    intro f _
    simp only [Function.comp]
    refine congrArg (fun v => (f, v)) ?_
    have hq : bucketQuantities (r0 :: M) [] "" f (startT, endT) =
        ((r0 :: M).filter (fun r => r.featureID = f)).map
          (fun r => r.quantity) := by
      rw [bucketQuantities]
      refine congrArg (List.map _) ?_
      refine List.filter_congr ?_
      intro r hr
      have hrf : r ∈ List.filter (fun r =>
          r.subscriptionID = sub &&
          r.externalCustomerID = cust &&
          (startT ≤ r.eventTimestamp && r.eventTimestamp < endT)) store := by
        rw [hc]; exact hr
      have hp := List.of_mem_filter hrf
      simp only [Bool.and_eq_true, decide_eq_true_eq] at hp
      have hle : startT ≤ r.eventTimestamp ∧ r.eventTimestamp < endT := by
        tauto
      rw [Bool.eq_iff_iff]
      simp [groupKeyOf_nil, inBucket, hle.1, hle.2]
    rw [hq]
    rfl

/-- Witness for C5: the boundary record at time 3600 lands in the bucket
`[3600, 7200)` of the hourly bucketing of `[1800, 9000)`. -/
theorem bucket_boundary_assignment_witness :
    1800 < 9000 ∧ (3600, 7200) ∈ buckets Granularity.hour 1800 9000 ∧
    boundaryRecord.eventTimestamp = 3600 ∧
    (inBucket (3600, 7200) boundaryRecord = true ∧
     (∀ b' ∈ buckets Granularity.hour 1800 9000, b' ≠ (3600, 7200) →
       inBucket b' boundaryRecord = false) ∧
     (∀ r' : UsageRecord, r'.eventTimestamp = boundaryRecord.eventTimestamp →
       ∀ b'' : Nat × Nat, inBucket b'' r' = inBucket b'' boundaryRecord)) :=
  ⟨by decide, by decide, by decide,
   bucket_boundary_assignment Granularity.hour 1800 9000 (by decide)
     (3600, 7200) (by decide) boundaryRecord (by decide)⟩
theorem sum_max_empty_bucket_asymmetry_witness :
    [recordA].filter (inBucket (0, 100)) = [] ∧
    (reduceBucket AggPolicy.sum
       (([recordA].filter (inBucket (0, 100))).map (fun r => r.quantity)) = some 0 ∧
     reduceBucket AggPolicy.max
       (([recordA].filter (inBucket (0, 100))).map (fun r => r.quantity)) = none) :=
  ⟨by decide, sum_max_empty_bucket_asymmetry [recordA] (0, 100) (by decide)⟩

/-! ### HubSpot signature verification lemmas -/

/-- A SHA-256 digest is 32 bytes. -/
theorem sha256_length (msg : List Nat) : (sha256 msg).length = 32 := by
  simp [sha256, wordBytes, toBytesBE]

/-- An HMAC-SHA256 tag is 32 bytes. -/
theorem hmacSha256_length (key msg : List Nat) :
    (hmacSha256 key msg).length = 32 := by
  simp [hmacSha256, sha256_length]

/-- Base64 of a nonempty byte string is nonempty. -/
theorem base64Encode_ne_nil {l : List Nat} (h : l ≠ []) :
    base64Encode l ≠ [] := by
  cases l with
  | nil => exact absurd rfl h
  | cons a t =>
    cases t with
    | nil => simp [base64Encode]
    | cons b t2 =>
      cases t2 with
      | nil => simp [base64Encode]
      | cons c rest => simp [base64Encode]

/-- C9: `VerifyWebhookSignatureV3` accepts exactly the Base64 (standard)
encoding of the HMAC-SHA256 of `method + uri + body + timestamp` keyed by
the client secret, and always rejects the empty signature; it is a pure
function of its six arguments. -/
theorem verify_webhook_signature_v3_spec
    (method uri requestBody timestamp : List Nat) (signature : List Char)
    (clientSecret : List Nat) :
    (verifyWebhookSignatureV3 method uri requestBody timestamp signature
        clientSecret = true ↔
      signature = base64Encode (hmacSha256 clientSecret
        (method ++ uri ++ requestBody ++ timestamp))) ∧
    verifyWebhookSignatureV3 method uri requestBody timestamp [] clientSecret
      = false := by
  have hne : base64Encode (hmacSha256 clientSecret
      (method ++ uri ++ requestBody ++ timestamp)) ≠ [] := by
    apply base64Encode_ne_nil
    have hl := hmacSha256_length clientSecret
      (method ++ uri ++ requestBody ++ timestamp)
    intro hnil
    rw [hnil] at hl
    simp at hl
  constructor
  · unfold verifyWebhookSignatureV3
    by_cases hs : signature.isEmpty
    · rw [if_pos hs]
      have hsig : signature = [] := List.isEmpty_iff.mp hs
      subst hsig
      exact iff_of_false (by simp) (fun heq => hne heq.symm)
    · rw [if_neg hs]
      simp [eq_comm]
  · rfl

/-! ### HubSpot webhook handler lemmas -/

/-- A successfully parsed timestamp lies in the `int64` range. -/
theorem parseInt64_range (s : String) (ts : Int)
    (h : parseInt64 s = some ts) :
    -9223372036854775808 ≤ ts ∧ ts ≤ 9223372036854775807 := by
  unfold parseInt64 at h
  cases hs : s.toList with
  | nil => rw [hs] at h; exact absurd h (by simp)
  | cons c rest =>
    rw [hs] at h
    simp only at h
    split_ifs at h
    · cases hpd : parseDigits rest with
      | none => rw [hpd] at h; simp at h
      | some n =>
        rw [hpd] at h
        simp only [Option.some_bind] at h
        split_ifs at h with hn
        · have hts : ts = (n : Int) := (Option.some.inj h).symm
          omega
    · cases hpd : parseDigits rest with
      | none => rw [hpd] at h; simp at h
      | some n =>
        rw [hpd] at h
        simp only [Option.some_bind] at h
        split_ifs at h with hn
        · have hts : ts = -(n : Int) := (Option.some.inj h).symm
          omega
    · cases hpd : parseDigits (c :: rest) with
      | none => rw [hpd] at h; simp at h
      | some n =>
        rw [hpd] at h
        simp only [Option.some_bind] at h
        split_ifs at h with hn
        · have hts : ts = (n : Int) := (Option.some.inj h).symm
          omega

/-- `wrap64` is the identity inside the `int64` range. -/
theorem wrap64_eq_self (x : Int) (h1 : -9223372036854775808 ≤ x)
    (h2 : x ≤ 9223372036854775807) : wrap64 x = x := by
  unfold wrap64
  omega

/-- Counterexample to C10 as stated: at the most negative `int64`
timestamp and clock 0 the mathematical difference exceeds 300000 ms, yet
the handler's wrapping `int64` subtraction overflows to a negative value
and the webhook passes the age check. -/
theorem hubspot_age_check_wrap_counterexample :
    parseInt64 wrapTimestampRequest.timestampHeader =
      some (-9223372036854775808) ∧
    maxAllowedTimestampAge <
      wrapTimestampRequest.currentTimeMillis - (-9223372036854775808) ∧
    (handleHubSpotWebhook wrapTimestampRequest).2 = true := by
  refine ⟨by decide, by decide, by decide⟩

/-- C10 (amended): the handler always answers HTTP 200; once the earlier
checks pass, a non-integer timestamp header is rejected, and a parsed
timestamp is rejected exactly when `currentTime − timestamp` computed in
wrapping `int64` arithmetic exceeds 300000 ms — in particular every
future timestamp (with a non-negative clock) passes the age check. -/
theorem hubspot_timestamp_age_check (req : HubSpotWebhookRequest) :
    (handleHubSpotWebhook req).1 = 200 ∧
    (req.tenantID ≠ "" → req.environmentID ≠ "" →
     req.signatureHeader ≠ "" → req.timestampHeader ≠ "" →
     req.clientSecret ≠ "" →
      ((parseInt64 req.timestampHeader = none →
          (handleHubSpotWebhook req).2 = false) ∧
       (∀ ts : Int, parseInt64 req.timestampHeader = some ts →
         (((handleHubSpotWebhook req).2 = false ↔
            maxAllowedTimestampAge < wrap64 (req.currentTimeMillis - ts)) ∧
          (0 ≤ req.currentTimeMillis → req.currentTimeMillis < ts →
            (handleHubSpotWebhook req).2 = true))))) := by
  refine ⟨rfl, ?_⟩
  intro h1 h2 h3 h4 h5
  constructor
  · intro hnone
    simp [handleHubSpotWebhook, h1, h2, h3, h4, h5, hnone]
  · intro ts hts
    have hrange := parseInt64_range req.timestampHeader ts hts
    constructor
    · simp only [handleHubSpotWebhook, h1, h2, h3, h4, h5, hts]
      simp [h1, h2, h3, h4, h5]
    · intro hc0 hlt
      have hw : wrap64 (req.currentTimeMillis - ts) =
          req.currentTimeMillis - ts :=
        wrap64_eq_self _ (by omega) (by omega)
      simp only [handleHubSpotWebhook, h1, h2, h3, h4, h5, hts]
      simp [h1, h2, h3, h4, h5]
      rw [hw]
      unfold maxAllowedTimestampAge
      omega

/-- Witness for C10 (amended): a fresh 100-second-old timestamp passes
the age check and the handler answers 200. -/
theorem hubspot_timestamp_age_check_witness :
    (handleHubSpotWebhook freshTimestampRequest).1 = 200 ∧
    (handleHubSpotWebhook freshTimestampRequest).2 = true := by
  have h := hubspot_timestamp_age_check freshTimestampRequest
  refine ⟨h.1, ?_⟩
  have h2 := (h.2 (by decide) (by decide) (by decide) (by decide)
    (by decide)).2 900000 (by decide)
  have h4 : ¬ (maxAllowedTimestampAge <
      wrap64 (freshTimestampRequest.currentTimeMillis - 900000)) := by decide
  cases hb : (handleHubSpotWebhook freshTimestampRequest).2 with
  | false => exact absurd (h2.1.mp hb) h4
  | true => rfl

end FlexPrice
